import Mathlib

/-!
Verification of the optimisation core of the sherpa package against its
natural-language specification.

The development shallowly embeds the Python sources:

* `sherpa/optmethods/opt.py` — the bounded objective (`Opt.func_bounds`), the
  simplex data structure (`SimplexBase` and its three initialisation
  strategies) and its convergence test;
* `sherpa/utils/parallel.py` — `split_array`, `worker`, `run_tasks`,
  `parallel_map` and `parallel_map_funcs`;
* `sherpa/optmethods/__init__.py` — `OptMethod.fit`.

Parameter values and objective values are embedded as rationals (the float64
arithmetic of the source is exact on all inputs the theorems evaluate, and the
verified properties are order/structure properties that do not depend on
rounding).  Fallible Python code is embedded with `Except`; the multiprocessing
queues are embedded as the lists of entries each worker leaves on them.
-/

namespace Sherpa

/-- `FUNC_MAX = np.finfo(np.float64).max` (opt.py line 35): the largest finite
float64, whose exact value is `(2^53 - 1) * 2^971`. -/
def FUNC_MAX : ℚ := (2 ^ 53 - 1) * 2 ^ 971

/-- `Opt._outside_limits` (opt.py lines 103-104):
`np.any(x < self.xmin) or np.any(x > self.xmax)`, elementwise over the
parameter vector. -/
def outside_limits (xmin xmax x : List ℚ) : Bool :=
  ((x.zip xmin).any fun p => decide (p.1 < p.2)) ||
    ((x.zip xmax).any fun p => decide (p.2 < p.1))

/-- Modelled from the spec: `FuncCounter` (imported from `sherpa.utils`, whose
source is not under src/) wraps the user callback; per the spec's data model
"every call increments the counter; the counter is exposed read-only as
`nfev`".  A call returns the callback's result and the incremented counter. -/
def FuncCounter.call (func : List ℚ → ℚ) (x : List ℚ) (nfev : ℕ) : ℚ × ℕ :=
  (func x, nfev + 1)

/-- `Opt.func_bounds` (opt.py lines 106-121): the returned
`func_bounds_wrapper` checks the limits first and returns `FUNC_MAX` without
touching the wrapped (counting) callback when they are violated; otherwise it
calls through.  In `Opt.__init__` the wrapped callback is the `FuncCounter`
around the user function, so the counter state is threaded explicitly here. -/
def func_bounds (xmin xmax : List ℚ) (func : List ℚ → ℚ) (x : List ℚ)
    (nfev : ℕ) : ℚ × ℕ :=
  if outside_limits xmin xmax x then (FUNC_MAX, nfev)
  else FuncCounter.call func x nfev

/-- Modelled from the spec: `Knuth_close` (imported from `sherpa.utils`, whose
source is not under src/): "Knuth's close-enough comparison:
`|a-b| <= ftol * max(|a|, |b|)`". -/
def Knuth_close (a b ftol : ℚ) : Bool :=
  decide (|a - b| ≤ ftol * max |a| |b|)

/-- `row[-1]`: the objective value stored in the last column of a simplex
row. -/
def rowFval (row : List ℚ) : ℚ := row.getLastD 0

/-- `row[:-1]`: the parameter part of a simplex row. -/
def rowPars (row : List ℚ) : List ℚ := row.dropLast

/-- `np.dot` of two equal-length vectors. -/
def npDot (xs ys : List ℚ) : ℚ := ((xs.zip ys).map fun p => p.1 * p.2).sum

/-- Elementwise vector difference, as numpy's `xi - x0`. -/
def vecSub (xs ys : List ℚ) : List ℚ := List.zipWith (fun a b => a - b) xs ys

/-- Mean of a list of values, as `np.mean` / the mean inside `np.std`. -/
def npMean (vals : List ℚ) : ℚ := vals.sum / (vals.length : ℚ)

/-- The variance `np.std(vals) ** 2`: mean of squared deviations from the
mean. -/
def npVariance (vals : List ℚ) : ℚ :=
  ((vals.map fun v => (v - npMean vals) ^ 2).sum) / (vals.length : ℚ)

/-- `are_func_vals_close_enough` (opt.py lines 147-151): Knuth-compare
`self.simplex[0, -1]` and `self.simplex[-1, -1]`. -/
def are_func_vals_close_enough (ftol : ℚ) (s : List (List ℚ)) : Bool :=
  Knuth_close (rowFval (s.headD [])) (rowFval (s.getLastD [])) ftol

/-- `is_fct_stddev_small_enough` (opt.py lines 153-155):
`np.std([col[-1] for col in self.simplex]) < ftol`.  The standard deviation is
the square root of `npVariance`; over the rationals the comparison is decided
through the equivalent square-free form `0 < ftol ∧ variance < ftol^2`
(justified by `sqrt_lt_iff_of_nonneg` below). -/
def is_fct_stddev_small_enough (ftol : ℚ) (s : List (List ℚ)) : Bool :=
  decide (0 < ftol ∧ npVariance (s.map rowFval) < ftol ^ 2)

/-- `is_max_length_small_enough` (opt.py lines 157-173): fold
`max_xi_x0 = max(max_xi_x0, np.dot(xi_x0, xi_x0))` over `ii in
range(1, npar + 1)` starting from `-1.0`, then compare against
`ftol * max(1.0, np.dot(x0, x0))`.  Note that the code compares squared
Euclidean lengths on the left while its own docstring states plain lengths. -/
def is_max_length_small_enough (ftol : ℚ) (s : List (List ℚ)) : Bool :=
  let x0 := rowPars (s.headD [])
  let max_xi_x0 := (List.range' 1 x0.length).foldl
    (fun acc ii =>
      let xi_x0 := vecSub (rowPars (s.getD ii [])) x0
      max acc (npDot xi_x0 xi_x0)) (-1)
  decide (max_xi_x0 ≤ ftol * max 1 (npDot x0 x0))

/-- `SimplexBase.check_convergence` (opt.py lines 145-191).  `method = 0`
returns criterion A alone (the trailing `return False` catches the
not-converged case); `method = 2` returns `False` early when A fails and
otherwise `B and C`; any other method returns `False` early when A fails and
otherwise `B or C`.  The block after the unconditional `return False` is
unreachable and is not modelled. -/
def check_convergence (ftol : ℚ) (method : ℤ) (s : List (List ℚ)) : Bool :=
  if method = 0 then
    is_max_length_small_enough ftol s
  else if method = 2 then
    if is_max_length_small_enough ftol s then
      is_fct_stddev_small_enough ftol s && are_func_vals_close_enough ftol s
    else false
  else
    if is_max_length_small_enough ftol s then
      is_fct_stddev_small_enough ftol s || are_func_vals_close_enough ftol s
    else false

/-- Ordering of simplex rows used by `sort_me`: by the objective value in the
last column. -/
def byFval (a b : List ℚ) : Prop := rowFval a ≤ rowFval b

instance : DecidableRel byFval :=
  fun a b => inferInstanceAs (Decidable (rowFval a ≤ rowFval b))

instance : IsTotal (List ℚ) byFval := ⟨fun a b => le_total (rowFval a) (rowFval b)⟩

instance : IsTrans (List ℚ) byFval :=
  ⟨fun _ _ _ hab hbc => le_trans hab hbc⟩

/-- `SimplexBase.sort_me` (opt.py lines 255-259):
`np.array(sorted(simp, key=lambda arg: arg[-1]))`.  Python's `sorted` is a
stable sort by the key; it is embedded as insertion sort (also stable); the
verified properties depend only on the output being an ordered permutation of
the input.  The `reshape` call in the source has no effect. -/
def sort_me (s : List (List ℚ)) : List (List ℚ) :=
  List.insertionSort byFval s

/-- `SimplexBase.eval_simplex` (opt.py lines 205-208): write
`self.func(simplex[ii][:-1])` into `simplex[ii][-1]` for every row, then
`sort_me`.  The objective column of the freshly `np.empty`-allocated simplex
is written here before it is ever read, so the embedding carries only the
parameter part of each row up to this point and appends the objective column
now. -/
def eval_simplex (func : List ℚ → ℚ) (rows : List (List ℚ)) : List (List ℚ) :=
  sort_me (rows.map fun p => p ++ [func p])

/-- The value `uniform(rng, lo, hi)` produces: some point of `[lo, hi]`.  The
random stream is modelled by the oracle value `v`, clamped into the interval
(for `lo ≤ hi` every point of the interval is `uniformDraw lo hi v` for some
`v`). -/
def uniformDraw (lo hi v : ℚ) : ℚ := max lo (min hi v)

/-- `SimplexBase.init_random_simplex` (opt.py lines 213-240): rows
`start .. npop-1` get fresh per-coordinate draws
`uniform(rng, max(xmin, xp - delta), min(xmax, xp + delta))` with
`deltas = factor * np.abs(xpar)`; earlier rows are kept.  The rng state is
modelled by the oracle `unif row coord`; the `np.random.seed(seed)` call
configures that state and has no other effect. -/
def init_random_simplex (xmin xmax xpar : List ℚ) (factor : ℚ)
    (rows : List (List ℚ)) (start npop : ℕ) (unif : ℕ → ℕ → ℚ) :
    List (List ℚ) :=
  if npop ≤ start then rows
  else
    let deltas := xpar.map fun xp => factor * |xp|
    rows.mapIdx fun ii p =>
      if start ≤ ii then
        (List.range xpar.length).map fun j =>
          uniformDraw (max (xmin.getD j 0) (xpar.getD j 0 - deltas.getD j 0))
            (min (xmax.getD j 0) (xpar.getD j 0 + deltas.getD j 0)) (unif ii j)
      else p

/-- Row `ii+1` built by `SimplexNoStep.init` (opt.py lines 267-277): a copy of
`xpar` whose coordinate `ii` is replaced by `2.5e-4` when it is zero and
multiplied by `1.05` otherwise. -/
def noStepRow (xpar : List ℚ) (ii : ℕ) : List ℚ :=
  xpar.mapIdx fun j v =>
    if j = ii then (if v = 0 then 1 / 4000 else v * (21 / 20)) else v

/-- Row `ii+1` built by `SimplexStep.init` (opt.py lines 291-293):
`tmp = xpar[ii] + step[ii]` is a scalar, and `simplex[ii + 1][:-1] = tmp`
broadcasts that scalar over the whole parameter slice of the row. -/
def stepRow (xpar step : List ℚ) (ii : ℕ) : List ℚ :=
  List.replicate xpar.length (xpar.getD ii 0 + step.getD ii 0)

/-- The explicitly assigned vertices of `SimplexStep.init`: row 0 is `xpar`,
row `ii+1` is `stepRow xpar step ii`. -/
def SimplexStep.vertices (xpar step : List ℚ) : List (List ℚ) :=
  [xpar] ++ (List.range xpar.length).map (stepRow xpar step)

/-- The step initialisation as the claim (and the `initsimplex = 0` case of the
`NelderMead` docstring, optmethods/__init__.py lines 740-751) states it:
vertex `ii+1` agrees with `xpar` in every coordinate except coordinate `ii`,
which becomes `xpar[ii] + step[ii]`. -/
def stepVerticesSpec (xpar step : List ℚ) : List (List ℚ) :=
  [xpar] ++ (List.range xpar.length).map fun ii =>
    xpar.mapIdx fun j v => if j = ii then v + step.getD ii 0 else v

/-- The explicitly assigned vertices of `SimplexNoStep.init`. -/
def SimplexNoStep.vertices (xpar : List ℚ) : List (List ℚ) :=
  [xpar] ++ (List.range xpar.length).map (noStepRow xpar)

/-- `SimplexNoStep.init` (opt.py lines 267-282): explicit first `npar+1`
vertices, random rows from `npar+1` (`garb` supplies the `np.empty` garbage of
any further rows before they are overwritten), then `eval_simplex`. -/
def SimplexNoStep.init (func : List ℚ → ℚ) (npop : ℕ) (xpar : List ℚ)
    (xmin xmax : List ℚ) (factor : ℚ) (unif : ℕ → ℕ → ℚ) (garb : ℕ → List ℚ) :
    List (List ℚ) :=
  let npar1 := xpar.length + 1
  let base := SimplexNoStep.vertices xpar ++ (List.range (npop - npar1)).map garb
  eval_simplex func
    (init_random_simplex xmin xmax xpar factor base npar1 npop unif)

/-- `SimplexStep.init` (opt.py lines 287-297): like `SimplexNoStep.init` but
with the (broadcast) step rows. -/
def SimplexStep.init (func : List ℚ → ℚ) (npop : ℕ) (xpar step : List ℚ)
    (xmin xmax : List ℚ) (factor : ℚ) (unif : ℕ → ℕ → ℚ) (garb : ℕ → List ℚ) :
    List (List ℚ) :=
  let npar1 := xpar.length + 1
  let base := SimplexStep.vertices xpar step ++ (List.range (npop - npar1)).map garb
  eval_simplex func
    (init_random_simplex xmin xmax xpar factor base npar1 npop unif)

/-- `SimplexRandom.init` (opt.py lines 302-310): row 0 is `xpar`, every other
row is drawn by `init_random_simplex` (starting at row 1), then
`eval_simplex`. -/
def SimplexRandom.init (func : List ℚ → ℚ) (npop : ℕ) (xpar : List ℚ)
    (xmin xmax : List ℚ) (factor : ℚ) (unif : ℕ → ℕ → ℚ) (garb : ℕ → List ℚ) :
    List (List ℚ) :=
  let base := [xpar] ++ (List.range (npop - 1)).map garb
  eval_simplex func (init_random_simplex xmin xmax xpar factor base 1 npop unif)

/-- Invariant the claim about initialisation asserts: the rows are in
ascending objective-value order and every row's last column is the bounded
objective of its parameter part. -/
def SimplexInvariant (func : List ℚ → ℚ) (rows : List (List ℚ)) : Prop :=
  rows.Sorted byFval ∧ ∀ row ∈ rows, row = rowPars row ++ [func (rowPars row)]

/-- Python 3 `round`: nearest integer, ties to the even integer.  (`Rat.floor`
is used rather than `Int.floor` so the definition evaluates by kernel
reduction; they agree, see `ratFloor_eq_floor`.) -/
def pyRound (q : ℚ) : ℤ :=
  if q - q.floor < 1 / 2 then q.floor
  else if 1 / 2 < q - q.floor then q.floor + 1
  else if q.floor % 2 = 0 then q.floor else q.floor + 1

/-- The cut points of `split_array` (parallel.py line 109):
`idx[i] = int(round(i * n / float(m)))`.  The float64 quotient is exact at
`i = 0` and `i = m` and correctly rounded (hence monotone in `i`) in between;
the embedding computes the exact rational quotient. -/
def splitIdx (n m i : ℕ) : ℕ := (pyRound ((i * n : ℚ) / (m : ℚ))).toNat

/-- `split_array(arr, m)` (parallel.py lines 79-110): the `m` consecutive
slices `arr[idx[i]:idx[i+1]]`. -/
def split_array {α : Type} (arr : List α) (m : ℕ) : List (List α) :=
  (List.range m).map fun i =>
    (arr.drop (splitIdx arr.length m i)).take
      (splitIdx arr.length m (i + 1) - splitIdx arr.length m i)

deriving instance DecidableEq for Except

/-- Exceptions as `run_tasks` can surface them in the calling process: a
re-raised worker exception from the error queue, the `TypeError` of
`vals.extend(None)`, or the `IndexError` of `results[idx]` with `idx` out of
range. -/
inductive RunErr (ε : Type) : Type
  | raised (e : ε)
  | typeErr
  | indexErr
deriving DecidableEq

/-- `list(map(f, chunk))`: forcing Python 3's lazy `map` object applies `f` to
the elements in order and stops at the first exception. -/
def pyListMap {α β ε : Type} (f : α → Except ε β) : List α → Except ε (List β)
  | [] => .ok []
  | a :: rest =>
    match f a with
    | .error e => .error e
    | .ok b => (pyListMap f rest).map fun bs => b :: bs

/-- What one worker process leaves on the two queues. -/
structure WorkerEffect (ε β : Type) : Type where
  outs : List (ℕ × List β)
  errs : List ε

/-- `worker(f, ii, chunk, out_q, err_q)` (parallel.py lines 113-122).  The
`try` block wraps only `vals = map(f, chunk)`, and Python 3's `map` is lazy:
creating it raises only when `chunk` is not iterable (that exception is caught
and put on `err_q`).  The calls to `f` happen at `list(vals)` inside
`out_q.put(...)`, outside the `try`: an exception there escapes the worker,
the child process dies, and neither queue receives anything. -/
def worker {α β ε : Type} (f : α → Except ε β) (ii : ℕ)
    (chunk : Except ε (List α)) : WorkerEffect ε β :=
  match chunk with
  | .error e => ⟨[], [e]⟩
  | .ok elems =>
    match pyListMap f elems with
    | .ok vals => ⟨[(ii, vals)], []⟩
    | .error _ => ⟨[], []⟩

/-- The loop `while not out_q.empty(): idx, result = out_q.get();
results[idx] = result` (parallel.py lines 150-152), in queue order;
`results[idx]` raises `IndexError` when `idx` is not below `len(results)`. -/
def fillResults {β ε : Type} (res : List (Option (List β))) :
    List (ℕ × List β) → Except (RunErr ε) (List (Option (List β)))
  | [] => .ok res
  | (idx, r) :: rest =>
    if idx < res.length then fillResults (res.set idx (some r)) rest
    else .error .indexErr

/-- The loop `for r in results: vals.extend(r)` (parallel.py lines 156-158):
concatenates the collected chunk results and raises `TypeError` at the first
slot that is still `None`. -/
def extendResults {β ε : Type} :
    List (Option (List β)) → Except (RunErr ε) (List β)
  | [] => .ok []
  | none :: _ => .error .typeErr
  | some r :: rest => (extendResults rest).map fun vals => r ++ vals

/-- `run_tasks(procs, err_q, out_q, num)` (parallel.py lines 125-159) after
all workers have been joined, given the queue contents they produced: a
non-empty error queue re-raises its first entry (after terminating leftover
processes); otherwise `num` result slots are filled from the out queue and
concatenated.  Process exit codes are never inspected, so a worker that died
without queueing anything simply leaves its slot as `None`. -/
def run_tasks {β ε : Type} (outq : List (ℕ × List β)) (errq : List ε)
    (num : ℕ) : Except (RunErr ε) (List β) :=
  match errq with
  | e :: _ => .error (.raised e)
  | [] =>
    match fillResults (List.replicate num none) outq with
    | .error err => .error err
    | .ok results => extendResults results

/-- The guard shared by `parallel_map` (line 240) and `parallel_map_funcs`
(lines 350-351): fall back to sequential evaluation when multiprocessing is
unavailable, there is a single item, or `numcores` was given and is below
2. -/
def seqFallback (multi : Bool) (size : ℕ) (numcores : Option ℕ) : Bool :=
  !multi || size == 1 ||
    (match numcores with
     | some k => decide (k < 2)
     | none => false)

/-- `parallel_map(function, sequence, numcores)` (parallel.py lines 232-271).
`multi` and `ncpus` stand for the module values `_multi` and `_ncpus`.  On the
parallel path the sequence is split into (at most `len(sequence)`) chunks, one
worker is spawned per chunk, and `run_tasks` is given the queue contents the
workers produced; the out queue is assembled here in spawn order (completion
order merely permutes it, which `run_tasks_queue_order_irrelevant` shows does
not change the outcome). -/
def parallel_map {α β ε : Type} (f : α → Except ε β) (seq : List α)
    (numcores : Option ℕ) (multi : Bool) (ncpus : ℕ) :
    Except (RunErr ε) (List β) :=
  if seqFallback multi seq.length numcores then
    (pyListMap f seq).mapError .raised
  else
    let nc0 := numcores.getD ncpus
    let nc := if seq.length < nc0 then seq.length else nc0
    let chunks := split_array seq nc
    let effects := chunks.enum.map fun p => worker f p.1 (.ok p.2)
    run_tasks ((effects.map WorkerEffect.outs).flatten)
      ((effects.map WorkerEffect.errs).flatten) nc

/-- Values as `parallel_map_funcs` passes them around: a dataset is a Python
object that is either a scalar or an array of scalars (one level of nesting is
all the dispatch semantics needs). -/
inductive PyVal : Type
  | num (q : ℚ)
  | arr (elems : List ℚ)
deriving DecidableEq

/-- Iterating a value, as `map(f, chunk)` does at creation time: arrays yield
their elements, scalars raise `TypeError`. -/
def pyIter : PyVal → Except String (List PyVal)
  | .arr elems => .ok (elems.map .num)
  | .num _ => .error "TypeError: not iterable"

/-- `parallel_map_funcs(funcs, datasets, numcores)` (parallel.py lines
274-374).  The sequential fallback is `list(map(funcs[0], datasets))`: it
applies the first function to every *dataset*.  The parallel path spawns
`worker(funcs[ii], ii, datasets[ii], ...)` per dataset, so `funcs[ii]` is
mapped over the *elements* of `datasets[ii]` and the chunk results are
concatenated by `run_tasks` (with `num = numcores` slots).  The claims
evaluate this with non-empty `funcs`, so `funcs[0]` is embedded as `headD`
with an identity default. -/
def parallel_map_funcs (funcs : List (PyVal → PyVal)) (datasets : List PyVal)
    (numcores : Option ℕ) (multi : Bool) (ncpus : ℕ) :
    Except (RunErr String) (List PyVal) :=
  if seqFallback multi datasets.length numcores then
    .ok (datasets.map (funcs.headD id))
  else
    let nc := numcores.getD ncpus
    let effects := datasets.enum.map fun p =>
      worker (fun v => (.ok ((funcs.getD p.1 id) v) : Except String PyVal))
        p.1 (pyIter p.2)
    run_tasks ((effects.map WorkerEffect.outs).flatten)
      ((effects.map WorkerEffect.errs).flatten) nc

/-- Top-level names bound in module `sherpa.utils.parallel` once it has
executed (the `del` on line 71 removes the config-parsing temporaries; the
two `multiprocessing` names are bound when the import succeeds). -/
def parallel_module_names : List String :=
  ["logging", "np", "warning", "_ncpus", "_multi", "multiprocessing",
   "multiprocessing_start_method", "split_array", "worker", "run_tasks",
   "parallel_map", "parallel_map_funcs", "__all__"]

/-- The names `sherpa.optmethods.opt` line 26 requests:
`from sherpa.utils.parallel import multi, context, run_tasks`. -/
def opt_parallel_import_names : List String :=
  ["multi", "context", "run_tasks"]

/-- `from M import a, b, ...` succeeds iff every requested name is bound in
module `M`; otherwise it raises `ImportError`. -/
def from_import_ok (module imported : List String) : Bool :=
  imported.all fun n => module.contains n

/-- Number of required positional parameters of
`run_tasks(procs, err_q, out_q, num)` (parallel.py line 125). -/
def run_tasks_arity : ℕ := 4

/-- Number of positional arguments `MyNcores.calc` passes at opt.py line 72:
`run_tasks(procs, err_q, out_q)`. -/
def myNcores_calc_run_tasks_args : ℕ := 3

/-- `np.asarray(pars).ravel()` on the 1-dimensional best-fit parameter vector:
the identity (the call exists to normalise scalar returns into an array). -/
def npRavel (pars : List ℚ) : List ℚ := pars

/-- The 5-tuple an optimiser function hands back:
`(success, pars, fval, msg, imsg)`.  The info dictionary is opaque here. -/
structure OptOutput (ι : Type) : Type where
  success : Bool
  pars : List ℚ
  fval : ℚ
  msg : String
  imsg : ι

/-- `OptMethod.fit` (optmethods/__init__.py lines 239-301) from the point the
wrapped optimiser function has returned `output`: warn when
`statargs`/`statkwargs` were supplied, unpack the 5-tuple, warn (only) when
`success` is false, and return the tuple with the parameters ravelled.  Every
statement on this path is total, so the embedding is a total function
returning the tuple together with the list of warnings logged. -/
def OptMethod.fit {ι : Type} (output : OptOutput ι)
    (statargs statkwargs : Option String) :
    (Bool × List ℚ × ℚ × String × ι) × List String :=
  let warns0 :=
    if statargs.isSome || statkwargs.isSome then
      ["statargs/kwargs set but values unused"]
    else []
  let warns :=
    if output.success then warns0
    else warns0 ++ ["fit failed: " ++ output.msg]
  ((output.success, npRavel output.pars, output.fval, output.msg, output.imsg),
    warns)

/-- Criterion A as the claim (and the docstring inside
`is_max_length_small_enough`, opt.py lines 158-163) words it: plain Euclidean
lengths, `max_i ||x_i - x_0|| <= ftol * max(1, ||x_0||)`. -/
def criterionA_as_claimed (ftol : ℚ) (s : List (List ℚ)) : Prop :=
  ∀ ii ∈ List.range' 1 (rowPars (s.headD [])).length,
    Real.sqrt ((npDot (vecSub (rowPars (s.getD ii [])) (rowPars (s.headD [])))
        (vecSub (rowPars (s.getD ii [])) (rowPars (s.headD []))) : ℚ)) ≤
      (ftol : ℝ) *
        max 1 (Real.sqrt ((npDot (rowPars (s.headD [])) (rowPars (s.headD [])) : ℚ)))

end Sherpa

namespace Sherpa

/-- `Rat.floor` agrees with the `Int.floor` of the `FloorRing` instance. -/
theorem ratFloor_eq_floor (q : ℚ) : q.floor = ⌊q⌋ :=
  (Rat.floor_def' q).trans Rat.floor_def.symm

/-- Justification for the square-free embedding of `np.std(vals) < ftol`:
for a nonnegative radicand the comparison of the square root against `t` is
the decided comparison of the radicand against `t^2`. -/
theorem sqrt_lt_iff_of_nonneg (v t : ℝ) (hv : 0 ≤ v) :
    Real.sqrt v < t ↔ 0 < t ∧ v < t ^ 2 := by
  constructor
  · intro h
    have ht : 0 < t := lt_of_le_of_lt (Real.sqrt_nonneg v) h
    refine ⟨ht, ?_⟩
    have := mul_self_lt_mul_self (Real.sqrt_nonneg v) h
    rwa [Real.mul_self_sqrt hv, ← sq] at this
  · rintro ⟨ht, hv2⟩
    have := Real.sqrt_lt_sqrt hv hv2
    rwa [Real.sqrt_sq ht.le] at this

/-- C1: when any component of `x` lies outside `[xmin, xmax]` the bounded
objective returns `FUNC_MAX`, leaves `nfev` unchanged and never consults the
wrapped callback (the outcome is independent of it); when all components are
inside, it returns the callback's value and increments `nfev` by exactly
one. -/
theorem func_bounds_poison_or_count (xmin xmax : List ℚ) (func : List ℚ → ℚ)
    (x : List ℚ) (nfev : ℕ) :
    (outside_limits xmin xmax x = true →
      func_bounds xmin xmax func x nfev = (FUNC_MAX, nfev) ∧
        ∀ g : List ℚ → ℚ,
          func_bounds xmin xmax g x nfev = func_bounds xmin xmax func x nfev) ∧
    (outside_limits xmin xmax x = false →
      func_bounds xmin xmax func x nfev = (func x, nfev + 1)) := by
  constructor <;> intro h <;> simp [func_bounds, h, FuncCounter.call]

/-- Witness for `func_bounds_poison_or_count`: with bounds `[0] .. [10]`, the
point `[-1]` is poisoned without counting and the point `[5]` is evaluated and
counted. -/
theorem func_bounds_poison_or_count_witness :
    func_bounds [0] [10] (fun _ => 7) [-1] 5 = (FUNC_MAX, 5) ∧
    func_bounds [0] [10] (fun _ => 7) [5] 5 = ((7 : ℚ), 6) := by
  refine ⟨((func_bounds_poison_or_count [0] [10] (fun _ => 7) [-1] 5).1 ?_).1,
    (func_bounds_poison_or_count [0] [10] (fun _ => 7) [5] 5).2 ?_⟩ <;>
    with_unfolding_all decide

/-- C3: `check_convergence` returns `True` exactly per the claimed
combination: `method = 0` is criterion A alone; `method = 2` is A and (B and
C); any other method is A and (B or C). -/
theorem check_convergence_combination (ftol : ℚ) (method : ℤ)
    (s : List (List ℚ)) :
    check_convergence ftol method s = true ↔
      (if method = 0 then is_max_length_small_enough ftol s = true
       else if method = 2 then
         is_max_length_small_enough ftol s = true ∧
           (is_fct_stddev_small_enough ftol s = true ∧
             are_func_vals_close_enough ftol s = true)
       else
         is_max_length_small_enough ftol s = true ∧
           (is_fct_stddev_small_enough ftol s = true ∨
             are_func_vals_close_enough ftol s = true)) := by
  unfold check_convergence
  split_ifs <;> simp_all

/-- C4: the code of `is_max_length_small_enough` compares squared Euclidean
distances against `ftol * max(1, ||x0||^2)`, not distances against
`ftol * max(1, ||x0||)` as claimed: with `ftol = 1/100` and the simplex with
vertices `[0]` and `[1/20]`, the code accepts (`(1/20)^2 = 1/400 <= 1/100`)
while the claimed criterion rejects (`1/20 > 1/100`). -/
theorem is_max_length_not_as_claimed :
    is_max_length_small_enough (1 / 100) [[0, 0], [1 / 20, 0]] = true ∧
    ¬ criterionA_as_claimed (1 / 100) [[0, 0], [1 / 20, 0]] := by
  constructor
  · with_unfolding_all decide
  · intro h
    have h1 := h 1 (by norm_num [rowPars])
    simp only [criterionA_as_claimed, rowPars, npDot, vecSub] at h1
    norm_num [List.headD, List.getD] at h1
    rw [show (400 : ℝ) = 20 ^ 2 by norm_num,
      Real.sqrt_sq (by norm_num : (0:ℝ) ≤ 20)] at h1
    norm_num at h1

/-- C6: `SimplexStep.init` broadcasts the scalar `xpar[ii] + step[ii]` over
the whole parameter slice of vertex `ii+1`, instead of changing only
coordinate `ii` as the claim (and the `NelderMead` docstring) states: from
`x0 = [1, 2]`, `step = [2, 3]` the code builds vertices `[3, 3]` and `[5, 5]`
where the documented construction gives `[3, 2]` and `[1, 5]`. -/
theorem simplexStep_broadcasts_scalar :
    SimplexStep.vertices [1, 2] [2, 3] = [[1, 2], [3, 3], [5, 5]] ∧
    stepVerticesSpec [1, 2] [2, 3] = [[1, 2], [3, 2], [1, 5]] ∧
    SimplexStep.vertices [1, 2] [2, 3] ≠ stepVerticesSpec [1, 2] [2, 3] := by
  refine ⟨?_, ?_, ?_⟩ <;> with_unfolding_all decide

/-- C8: when the optimiser reports `success = False`, `OptMethod.fit` logs the
`fit failed` warning and still returns the 5-tuple normally (it is a total
function of the optimiser output; nothing on this path raises). -/
theorem fit_warns_and_returns {ι : Type} (out : OptOutput ι)
    (h : out.success = false) :
    OptMethod.fit out none none =
      ((false, out.pars, out.fval, out.msg, out.imsg),
        ["fit failed: " ++ out.msg]) := by
  simp [OptMethod.fit, npRavel, h]

/-- Witness for `fit_warns_and_returns` at a concrete failed fit. -/
theorem fit_warns_and_returns_witness :
    OptMethod.fit (⟨false, [1], 2, "no convergence", ()⟩ : OptOutput Unit)
        none none =
      ((false, [1], 2, "no convergence", ()),
        ["fit failed: " ++ "no convergence"]) :=
  fit_warns_and_returns ⟨false, [1], 2, "no convergence", ()⟩ rfl

/-- C9: `sherpa.utils.parallel` binds neither `multi` nor `context`, so the
`from sherpa.utils.parallel import multi, context, run_tasks` of
`sherpa.optmethods.opt` cannot succeed, and independently the
`run_tasks(procs, err_q, out_q)` call of `MyNcores.calc` supplies one
positional argument fewer than `run_tasks` requires: the call can never
return normally. -/
theorem opt_import_of_parallel_is_broken :
    "multi" ∉ parallel_module_names ∧ "context" ∉ parallel_module_names ∧
    from_import_ok parallel_module_names opt_parallel_import_names = false ∧
    myNcores_calc_run_tasks_args ≠ run_tasks_arity := by
  refine ⟨?_, ?_, ?_, ?_⟩ <;> decide

/-- C10: the sequential fallback of `parallel_map_funcs` applies `funcs[0]` to
every dataset, while the parallel path applies `funcs[ii]` elementwise inside
`datasets[ii]`; with two distinct constant functions over two singleton
datasets the two paths disagree. -/
theorem parallel_map_funcs_fallback_vs_parallel :
    (∀ (funcs : List (PyVal → PyVal)) (datasets : List PyVal)
        (numcores : Option ℕ) (ncpus : ℕ),
       parallel_map_funcs funcs datasets numcores false ncpus =
         .ok (datasets.map (funcs.headD id))) ∧
    parallel_map_funcs [fun _ => .num 0, fun _ => .num 1]
        [.arr [1], .arr [2]] (some 2) true 4 ≠
      parallel_map_funcs [fun _ => .num 0, fun _ => .num 1]
        [.arr [1], .arr [2]] (some 2) false 4 := by
  constructor
  · intro funcs datasets nc ncpus
    simp [parallel_map_funcs, seqFallback]
  · with_unfolding_all decide

/-- C2: an exception raised by the work function is NOT re-raised by the
dispatcher: Python 3's `map` is lazy, so the `try` in `worker` never sees it;
the worker dies without touching the error queue, its result slot stays
`None`, and `run_tasks` instead raises the `TypeError` of
`vals.extend(None)`.  Concretely, mapping a function that raises on item `1`
over `[0, 1]` with two cores yields `TypeError`, not the original
exception. -/
theorem worker_exception_becomes_typeerror :
    parallel_map
        (fun n : ℕ => if n = 1 then (.error "boom" : Except String ℕ) else .ok n)
        [0, 1] (some 2) true 4 = .error RunErr.typeErr ∧
    (Except.error RunErr.typeErr : Except (RunErr String) (List ℕ)) ≠
      .error (.raised "boom") := by
  constructor <;> with_unfolding_all decide

end Sherpa

namespace Sherpa

/-- Rows of `sort_me` output are exactly the input rows (Python `sorted`
returns a permutation). -/
theorem mem_sort_me {a : List ℚ} {s : List (List ℚ)} : a ∈ sort_me s ↔ a ∈ s :=
  (List.perm_insertionSort byFval s).mem_iff

/-- `eval_simplex` establishes the simplex invariant on any row matrix: the
output is sorted ascending by the objective column and every output row's
objective entry is the objective of its own parameter part (every vertex was
evaluated before the sort). -/
theorem eval_simplex_invariant (func : List ℚ → ℚ) (rows : List (List ℚ)) :
    SimplexInvariant func (eval_simplex func rows) := by
  constructor
  · exact List.sorted_insertionSort byFval _
  · intro row hrow
    simp only [eval_simplex] at hrow
    rw [mem_sort_me] at hrow
    obtain ⟨p, hp, rfl⟩ := List.mem_map.1 hrow
    simp [rowPars]

/-- C7: `sort_me` always returns rows in ascending objective-value order, and
each of the three initialisation strategies returns a simplex that is sorted
ascending by the last column with every vertex evaluated through the bounded
objective (last column equals the objective of the row's parameters) before
the sort. -/
theorem simplex_init_sorted_and_evaluated (func : List ℚ → ℚ) :
    (∀ s : List (List ℚ), (sort_me s).Sorted byFval) ∧
    (∀ (npop : ℕ) (xpar step xmin xmax : List ℚ) (factor : ℚ)
        (unif : ℕ → ℕ → ℚ) (garb : ℕ → List ℚ),
      SimplexInvariant func
          (SimplexNoStep.init func npop xpar xmin xmax factor unif garb) ∧
        SimplexInvariant func
          (SimplexStep.init func npop xpar step xmin xmax factor unif garb) ∧
        SimplexInvariant func
          (SimplexRandom.init func npop xpar xmin xmax factor unif garb)) := by
  refine ⟨fun s => List.sorted_insertionSort byFval s, ?_⟩
  intro npop xpar step xmin xmax factor unif garb
  exact ⟨eval_simplex_invariant _ _, eval_simplex_invariant _ _,
    eval_simplex_invariant _ _⟩

end Sherpa

namespace Sherpa

/-- Python 3 `round` is the identity on integers. -/
theorem pyRound_intCast (z : ℤ) : pyRound (z : ℚ) = z := by
  have hf : ((z : ℚ)).floor = z := by rw [ratFloor_eq_floor, Int.floor_intCast]
  unfold pyRound
  rw [hf]
  norm_num

/-- `round` lands on the floor or the floor plus one. -/
theorem pyRound_bounds (q : ℚ) : q.floor ≤ pyRound q ∧ pyRound q ≤ q.floor + 1 := by
  unfold pyRound
  split_ifs <;> omega

/-- Python 3 `round` is monotone. -/
theorem pyRound_mono {p q : ℚ} (h : p ≤ q) : pyRound p ≤ pyRound q := by
  have hfm : p.floor ≤ q.floor := by
    rw [ratFloor_eq_floor, ratFloor_eq_floor]
    exact Int.floor_le_floor h
  rcases lt_or_eq_of_le hfm with hlt | heq
  · have b1 := pyRound_bounds p
    have b2 := pyRound_bounds q
    omega
  · have hpq : p - (p.floor : ℚ) ≤ q - (p.floor : ℚ) := by linarith
    unfold pyRound
    rw [← heq]
    split_ifs <;> first | rfl | omega | (exfalso; linarith)

/-- The first cut point is `0`. -/
theorem splitIdx_zero (n m : ℕ) : splitIdx n m 0 = 0 := by
  have h0 : ((0 : ℕ) : ℚ) * n / m = ((0 : ℤ) : ℚ) := by push_cast; ring
  unfold splitIdx
  rw [h0, pyRound_intCast]
  rfl

/-- The last cut point is the array length. -/
theorem splitIdx_last (n m : ℕ) (hm : m ≠ 0) : splitIdx n m m = n := by
  have hm' : (m : ℚ) ≠ 0 := Nat.cast_ne_zero.2 hm
  have h0 : ((m : ℕ) : ℚ) * n / m = ((n : ℤ) : ℚ) := by
    push_cast
    field_simp
  unfold splitIdx
  rw [h0, pyRound_intCast]
  exact Int.toNat_natCast n

/-- The cut points are nondecreasing. -/
theorem splitIdx_mono (n m : ℕ) {i j : ℕ} (h : i ≤ j) :
    splitIdx n m i ≤ splitIdx n m j := by
  have hq : ((i : ℕ) : ℚ) * n / m ≤ ((j : ℕ) : ℚ) * n / m := by
    rcases Nat.eq_zero_or_pos m with rfl | hm
    · norm_num
    · have hij : ((i : ℕ) : ℚ) ≤ ((j : ℕ) : ℚ) := by exact_mod_cast h
      have hn : (0 : ℚ) ≤ (n : ℚ) := by positivity
      have hc : (0 : ℚ) < (m : ℚ) := by positivity
      gcongr
  exact Int.toNat_le_toNat (pyRound_mono hq)

end Sherpa

namespace Sherpa

/-- Consecutive slices between nondecreasing cut points concatenate to the
slice between the outer cut points. -/
theorem flatten_slices {α : Type} (arr : List α) (idx : ℕ → ℕ)
    (hmono : ∀ i j, i ≤ j → idx i ≤ idx j) :
    ∀ m, ((List.range m).map fun i =>
        (arr.drop (idx i)).take (idx (i + 1) - idx i)).flatten
      = (arr.drop (idx 0)).take (idx m - idx 0) := by
  intro m
  induction m with
  | zero => simp
  | succ m ih =>
    rw [List.range_succ, List.map_append, List.flatten_append, ih]
    simp only [List.map_cons, List.map_nil, List.flatten_cons, List.flatten_nil,
      List.append_nil]
    have hab : idx 0 ≤ idx m := hmono 0 m (Nat.zero_le m)
    have hbc : idx m ≤ idx (m + 1) := hmono m (m + 1) (Nat.le_succ m)
    have hsum : idx (m + 1) - idx 0 = (idx m - idx 0) + (idx (m + 1) - idx m) := by
      omega
    rw [hsum, List.take_add]
    congr 2
    rw [List.drop_drop]
    congr 1
    omega

/-- `split_array` splits the array into `m` pieces whose concatenation is the
original array (for `m >= 1`). -/
theorem flatten_split_array {α : Type} (arr : List α) (m : ℕ) (hm : m ≠ 0) :
    (split_array arr m).flatten = arr := by
  unfold split_array
  rw [flatten_slices arr _ (fun i j h => splitIdx_mono _ _ h) m,
    splitIdx_zero, splitIdx_last _ _ hm]
  simp

/-- `split_array` always returns `m` chunks. -/
theorem split_array_length {α : Type} (arr : List α) (m : ℕ) :
    (split_array arr m).length = m := by
  simp [split_array]

/-- Forcing `list(map(f, chunk))` for a function that raises no exception
returns the plain map. -/
theorem pyListMap_ok {α β ε : Type} (f : α → β) (l : List α) :
    pyListMap (fun a => (.ok (f a) : Except ε β)) l = .ok (l.map f) := by
  induction l with
  | nil => rfl
  | cons a as ih => simp [pyListMap, ih, Except.map]

/-- Filling the result slots from index-tagged entries `(j, ls_0), (j+1, ls_1),
...` writes the entries into slots `j, j+1, ...`. -/
theorem fillResults_enumFrom {β ε : Type} :
    ∀ (ls : List (List β)) (res : List (Option (List β))) (j : ℕ),
      res.length = j + ls.length →
      fillResults (ε := ε) res (List.enumFrom j ls) =
        .ok (res.take j ++ ls.map some) := by
  intro ls
  induction ls with
  | nil =>
    intro res j hlen
    simp only [List.enumFrom, fillResults, List.map_nil, List.append_nil]
    have hj : res.length = j := by simpa using hlen
    rw [← hj, List.take_length]
  | cons l rest ih =>
    intro res j hlen
    have hj : j < res.length := by rw [hlen, List.length_cons]; omega
    simp only [List.enumFrom, fillResults, hj, if_pos]
    rw [ih (res.set j (some l)) (j + 1)
      (by rw [List.length_set, hlen, List.length_cons]; omega)]
    have h1 : (res.set j (some l)).take j = res.take j := by
      rw [List.set_take]
      apply List.set_eq_of_length_le
      simp
    rw [List.take_succ, h1, List.getElem?_set_self hj]
    simp

end Sherpa

namespace Sherpa

/-- Filling `len(ls)` fresh slots from the enumerated entries yields exactly
the entries, in index order. -/
theorem fillResults_enum {β ε : Type} (ls : List (List β)) :
    fillResults (ε := ε) (List.replicate ls.length none) ls.enum =
      .ok (ls.map some) := by
  have h := fillResults_enumFrom (ε := ε) ls (List.replicate ls.length none) 0
    (by simp)
  simpa using h

/-- Extending over fully filled slots concatenates the chunk results. -/
theorem extendResults_map_some {β ε : Type} (ls : List (List β)) :
    extendResults (ε := ε) (ls.map some) = .ok ls.flatten := by
  induction ls with
  | nil => rfl
  | cons l rest ih => simp [extendResults, ih, Except.map]

/-- `run_tasks` with an empty error queue and one entry per slot, in index
order, returns the concatenated results. -/
theorem run_tasks_all_ok {β ε : Type} (ls : List (List β)) :
    run_tasks (ε := ε) ls.enum [] ls.length = .ok ls.flatten := by
  simp only [run_tasks, fillResults_enum]
  exact extendResults_map_some ls

/-- Mapping to singletons and flattening is mapping. -/
theorem flatten_singleton_map {α β : Type} (g : α → β) (l : List α) :
    (l.map fun x => [g x]).flatten = l.map g := by
  induction l with
  | nil => rfl
  | cons a as ih => simp [ih]

/-- C5: for a total work function, `parallel_map` over 1 to `len(sequence)`
cores returns exactly the sequential `list(map(f, sequence))`, in order. -/
theorem parallel_map_matches_map {α β : Type} (f : α → β) (seq : List α)
    (k : ℕ) (ncpus : ℕ) (hk1 : 1 ≤ k) (hk2 : k ≤ seq.length)
    (hN : 1 ≤ seq.length) :
    parallel_map (fun a => (.ok (f a) : Except Unit β)) seq (some k) true ncpus
      = .ok (seq.map f) := by
  unfold parallel_map
  by_cases hfb : seqFallback true seq.length (some k) = true
  · rw [if_pos hfb, pyListMap_ok]
    rfl
  · rw [if_neg hfb]
    have hk0 : k ≠ 0 := by omega
    have hnc : ¬ seq.length < k := by omega
    simp only [Option.getD_some, if_neg hnc]
    have heff : ((split_array seq k).enum.map fun p =>
          worker (fun a => (.ok (f a) : Except Unit β)) p.1 (.ok p.2))
        = (split_array seq k).enum.map fun p =>
          (⟨[(p.1, p.2.map f)], []⟩ : WorkerEffect Unit β) := by
      apply List.map_congr_left
      intro p _
      simp [worker, pyListMap_ok]
    rw [heff]
    rw [List.map_map, List.map_map]
    have houts : ((split_array seq k).enum.map
          (WorkerEffect.outs ∘ fun p => (⟨[(p.1, p.2.map f)], []⟩ : WorkerEffect Unit β))).flatten
        = ((split_array seq k).map (List.map f)).enum := by
      rw [show (WorkerEffect.outs ∘ fun p : ℕ × List α =>
          (⟨[(p.1, p.2.map f)], []⟩ : WorkerEffect Unit β))
        = fun p => [(p.1, p.2.map f)] from rfl]
      rw [flatten_singleton_map]
      rw [List.enum_map]
      apply List.map_congr_left
      intro p _
      rfl
    have herrs : ((split_array seq k).enum.map
          (WorkerEffect.errs ∘ fun p => (⟨[(p.1, p.2.map f)], []⟩ : WorkerEffect Unit β))).flatten
        = ([] : List Unit) := by
      rw [show (WorkerEffect.errs ∘ fun p : ℕ × List α =>
          (⟨[(p.1, p.2.map f)], []⟩ : WorkerEffect Unit β))
        = fun _ => ([] : List Unit) from rfl]
      simp
    rw [houts, herrs]
    have hlen : k = ((split_array seq k).map (List.map f)).length := by
      simp [split_array_length]
    have hrt := run_tasks_all_ok (ε := Unit) ((split_array seq k).map (List.map f))
    rw [← hlen] at hrt
    rw [hrt, ← List.map_flatten, flatten_split_array seq k hk0]

/-- Witness for `parallel_map_matches_map`: three items over two cores. -/
theorem parallel_map_matches_map_witness :
    parallel_map (fun q : ℚ => (.ok (q + 1) : Except Unit ℚ)) [1, 2, 3]
        (some 2) true 4 = .ok ([1, 2, 3].map fun q : ℚ => q + 1) :=
  parallel_map_matches_map (fun q : ℚ => q + 1) [1, 2, 3] 2 4 (by decide)
    (by decide) (by decide)

end Sherpa

namespace Sherpa

/-- A key outside the keys of an association list looks up to nothing. -/
theorem lookup_eq_none_of_not_mem {β : Type} {j : ℕ} :
    ∀ {es : List (ℕ × List β)}, j ∉ es.map Prod.fst → es.lookup j = none := by
  intro es
  induction es with
  | nil => intro h; rfl
  | cons p rest ih =>
    intro h
    obtain ⟨i, r⟩ := p
    simp only [List.map_cons, List.mem_cons] at h
    push_neg at h
    rw [List.lookup_cons]
    have : (j == i) = false := by simpa using h.1
    rw [this]
    exact ih h.2

/-- With pairwise distinct keys, lookup finds a value exactly when the pair is
an element. -/
theorem lookup_eq_some_iff_mem {β : Type} {j : ℕ} {v : List β} :
    ∀ {es : List (ℕ × List β)}, (es.map Prod.fst).Nodup →
      (es.lookup j = some v ↔ (j, v) ∈ es) := by
  intro es
  induction es with
  | nil => intro _; simp
  | cons p rest ih =>
    intro hnd
    obtain ⟨i, r⟩ := p
    simp only [List.map_cons, List.nodup_cons] at hnd
    rw [List.lookup_cons, List.mem_cons]
    rcases Nat.decEq j i with hji | hji
    case isFalse =>
      have : (j == i) = false := by simpa using hji
      rw [this, ih hnd.2]
      constructor
      · exact fun h => Or.inr h
      · rintro (h | h)
        · exact absurd (congrArg Prod.fst h) (by simpa using hji)
        · exact h
    case isTrue =>
      subst hji
      have hbeq : (j == j) = true := by simp
      rw [hbeq]
      show some r = some v ↔ (j, v) = (j, r) ∨ (j, v) ∈ rest
      constructor
      · intro h
        exact Or.inl (by simp [Option.some.inj h])
      · rintro (h | h)
        · simp only [Prod.mk.injEq, true_and] at h
          simp [h]
        · exact absurd (List.mem_map_of_mem Prod.fst h) (by simpa using hnd.1)
end Sherpa

namespace Sherpa

/-- Lookup in an association list with pairwise distinct keys does not depend
on the order of the entries. -/
theorem lookup_perm {β : Type} {es es' : List (ℕ × List β)} (hperm : es.Perm es')
    (hnd : (es.map Prod.fst).Nodup) (j : ℕ) : es.lookup j = es'.lookup j := by
  have hnd' : (es'.map Prod.fst).Nodup := ((hperm.map Prod.fst).nodup_iff).1 hnd
  cases hv : es.lookup j with
  | some v =>
    have hmem := (lookup_eq_some_iff_mem hnd).1 hv
    exact ((lookup_eq_some_iff_mem hnd').2 (hperm.mem_iff.1 hmem)).symm
  | none =>
    by_cases hk : j ∈ es'.map Prod.fst
    · obtain ⟨p, hp, hfst⟩ := List.mem_map.1 hk
      have hmem : (p.1, p.2) ∈ es := hperm.mem_iff.2 (by simpa using hp)
      have := (lookup_eq_some_iff_mem hnd).2 (hfst ▸ hmem)
      rw [hv] at this
      cases this
    · exact (lookup_eq_none_of_not_mem hk).symm

/-- Filling the result slots from in-range entries with pairwise distinct
indices succeeds, and each slot holds the entry with its index (or its initial
value when no entry carries that index). -/
theorem fillResults_ok {β ε : Type} :
    ∀ (es : List (ℕ × List β)) (res : List (Option (List β))),
      (∀ p ∈ es, p.1 < res.length) → (es.map Prod.fst).Nodup →
      ∃ R, fillResults (ε := ε) res es = .ok R ∧ R.length = res.length ∧
        ∀ j : ℕ, R[j]? = ((es.lookup j).map some).or res[j]? := by
  intro es
  induction es with
  | nil =>
    intro res _ _
    exact ⟨res, rfl, rfl, fun j => by simp⟩
  | cons p rest ih =>
    intro res hlt hnd
    obtain ⟨i, r⟩ := p
    have hi : i < res.length := hlt (i, r) (List.mem_cons_self _ _)
    simp only [List.map_cons, List.nodup_cons] at hnd
    obtain ⟨R, hfill, hlen, hget⟩ := ih (res.set i (some r))
      (fun p hp => by rw [List.length_set]; exact hlt p (List.mem_cons_of_mem _ hp))
      hnd.2
    refine ⟨R, ?_, by rw [hlen, List.length_set], ?_⟩
    · simp only [fillResults, hi, if_pos]
      exact hfill
    · intro j
      rw [hget j, List.lookup_cons]
      by_cases hji : j = i
      · subst hji
        have hbeq : (j == j) = true := by simp
        rw [hbeq]
        have : rest.lookup j = none := lookup_eq_none_of_not_mem (by simpa using hnd.1)
        rw [this, List.getElem?_set_self hi]
        simp
      · have hbeq : (j == i) = false := by simpa using hji
        rw [hbeq, List.getElem?_set_ne (by omega)]

/-- The outcome of `run_tasks` does not depend on the order in which the
workers delivered their tagged results to the out queue: any permutation of
in-range, distinctly tagged entries gives the same value.  This is the
order-independence behind `parallel_map` assembling the queue in spawn
order. -/
theorem run_tasks_queue_order_irrelevant {β ε : Type}
    (outq outq' : List (ℕ × List β)) (errq : List ε) (num : ℕ)
    (hperm : outq.Perm outq') (hnd : (outq.map Prod.fst).Nodup)
    (hlt : ∀ p ∈ outq, p.1 < num) :
    run_tasks outq errq num = run_tasks outq' errq num := by
  cases errq with
  | cons e es => rfl
  | nil =>
    have hnd' : (outq'.map Prod.fst).Nodup := ((hperm.map Prod.fst).nodup_iff).1 hnd
    have hlt' : ∀ p ∈ outq', p.1 < num := fun p hp => hlt p (hperm.mem_iff.2 hp)
    obtain ⟨R, hR, hRlen, hRget⟩ := fillResults_ok (ε := ε) outq
      (List.replicate num none) (by simpa using hlt) hnd
    obtain ⟨R', hR', hRlen', hRget'⟩ := fillResults_ok (ε := ε) outq'
      (List.replicate num none) (by simpa using hlt') hnd'
    have hRR : R = R' := by
      apply List.ext_getElem?
      intro j
      rw [hRget j, hRget' j, lookup_perm hperm hnd j]
    simp only [run_tasks, hR, hR', hRR]

end Sherpa
